import Mathlib

/-!
Verification of the function-marshaling layer and the native-module
lifecycle of an embedding library, shallowly embedded from the Rust
sources src/value/function/as_func.rs and src/value/module.rs.

Native parameter and return values are modelled uniformly as Nat; the
fallible FromJs and IntoJs conversion capabilities are abstract
parameters of each theorem, as they are external collaborators of the
two source files.
-/

namespace Rq

/-- Engine value: a tagged union with at least Function and Object
variants, as required by the constructor adapter. -/
inductive JSValue where
  | function : Nat → JSValue
  | object : Nat → JSValue
  | int : Int → JSValue
  | undefined : JSValue
deriving DecidableEq, Repr

/-- Error type of the embedding layer, restricted to the variants the two
source files construct: Error::FromJs, Error::IntoJs, Error::Allocation
and the name-encoding error produced when CString::new rejects a name. -/
inductive Error where
  | fromJs (source target : String) (message : Option String)
  | intoJs (source target : String) (message : Option String)
  | allocation
  | invalidString
deriving DecidableEq, Repr

/-- Message carried by an error, when any. -/
def Error.message : Error → Option String
  | Error.fromJs _ _ m => m
  | Error.intoJs _ _ m => m
  | Error.allocation => none
  | Error.invalidString => none

/-- Mirrors fn not_enough_args in as_func.rs, the argument-arity error. -/
def not_enough_args : Error :=
  Error.fromJs "args" "args" (some "Not enough arguments")

/-- Kinds of parameter slots a generated callable shape may contain. -/
inductive ParamKind where
  | receiver
  | ctx
  | thisArg
  | positional
  | varargs
deriving DecidableEq, Repr

/-- Structural descriptor of one impl generated by the as_fn_impls macro:
whether the callable is a Method (with receiver type S), whether the
generated parameter tuple starts with Ctx and then This, how many plain
positional type parameters it has, and whether it ends with an Args
varargs capture. -/
structure Shape where
  isMethod : Bool
  hasCtx : Bool
  hasThis : Bool
  positional : Nat
  hasVarargs : Bool
deriving DecidableEq, Repr

/-- Parameter slot list of the generated impl, in declaration order. -/
def Shape.params (s : Shape) : List ParamKind :=
  (if s.isMethod then [ParamKind.receiver] else []) ++
  (if s.hasCtx then [ParamKind.ctx] else []) ++
  (if s.hasThis then [ParamKind.thisArg] else []) ++
  List.replicate s.positional ParamKind.positional ++
  (if s.hasVarargs then [ParamKind.varargs] else [])

/-- Mirrors const LEN, which the macro computes as a sum starting at zero
with one unit added per plain positional type parameter. -/
def Shape.LEN (s : Shape) : Nat :=
  (List.replicate s.positional ParamKind.positional).foldl
    (fun acc _ => acc + 1) 0

/-- Conversion environment of one generated call body: the FromJs
capability for the Method receiver S, for the This parameter, for each
positional parameter by position, and for the varargs element type. -/
structure CallEnv where
  recvConv : JSValue → Except Error Nat
  thisConv : JSValue → Except Error Nat
  posConv : Nat → JSValue → Except Error Nat
  varConv : JSValue → Except Error Nat

/-- Assembled native argument tuple passed to the wrapped callable, in
the structural order receiver, ctx, this, positionals, varargs. -/
structure NativeArgs where
  recv : Option Nat
  ctxPassed : Bool
  thisArg : Option Nat
  positionals : List Nat
  varargs : Option (List Nat)
deriving DecidableEq, Repr

/-- Mirrors the per-parameter pulls the macro generates for plain type
parameters: args.next().ok_or_else(not_enough_args) followed by from_js,
left to right; the first Nat argument is the position of the next
parameter, the second the number of parameters still to pull. -/
def pullPositionals (conv : Nat → JSValue → Except Error Nat) :
    Nat → Nat → List JSValue → Except Error (List Nat × List JSValue)
  | _, 0, args => Except.ok ([], args)
  | _, _ + 1, [] => Except.error not_enough_args
  | i, n + 1, a :: rest =>
    match conv i a with
    | Except.error e => Except.error e
    | Except.ok v =>
      match pullPositionals conv (i + 1) n rest with
      | Except.error e => Except.error e
      | Except.ok (vs, rem) => Except.ok (v :: vs, rem)

/-- Mirrors args.map(from_js).collect::<Result<_>>() in the varargs arm
of the macro: convert every remaining cursor element in order, stopping
at the first failure. -/
def collectResults (conv : JSValue → Except Error Nat) :
    List JSValue → Except Error (List Nat)
  | [] => Except.ok []
  | a :: rest =>
    match conv a with
    | Except.error e => Except.error e
    | Except.ok v =>
      match collectResults conv rest with
      | Except.error e => Except.error e
      | Except.ok vs => Except.ok (v :: vs)

/-- Mirrors the generated AsFunction::call and AsFunctionMut::call bodies
for the Method and plain closure impls: receiver conversion first when
the shape is a Method, Ctx passed through unconverted, This conversion,
then the positional pulls, then the varargs drain, then the wrapped call
and the IntoJs conversion of its result (intoJs composed after f). -/
def asFunctionCall (s : Shape) (env : CallEnv) (f : NativeArgs → Nat)
    (intoJs : Nat → Except Error JSValue) (thisVal : JSValue)
    (args : List JSValue) : Except Error JSValue :=
  match (if s.isMethod then Except.map some (env.recvConv thisVal)
         else Except.ok none) with
  | Except.error e => Except.error e
  | Except.ok orv =>
    match (if s.hasThis then Except.map some (env.thisConv thisVal)
           else Except.ok none) with
    | Except.error e => Except.error e
    | Except.ok otv =>
      match pullPositionals env.posConv 0 s.positional args with
      | Except.error e => Except.error e
      | Except.ok (pv, rest) =>
        match (if s.hasVarargs
               then Except.map some (collectResults env.varConv rest)
               else Except.ok none) with
        | Except.error e => Except.error e
        | Except.ok ova =>
          intoJs (f (NativeArgs.mk orv s.hasCtx otv pv ova))

/-- Class and prototype environment of the Constructor impl: Function
get_prototype applied to the new target, the statically registered
Class prototype, the class name C::CLASS_NAME, and the possible failure
of Object::set_prototype. -/
structure CtorEnv where
  getProto : Nat → Except Error Nat
  classProto : Except Error Nat
  className : String
  setProtoErr : Nat → Nat → Option Error

/-- Engine object-prototype state: object id to prototype object id. -/
abbrev Heap : Type := Nat → Option Nat

/-- Engine effect of obj.set_prototype on the prototype state. -/
def setPrototype (h : Heap) (oid proto : Nat) : Heap :=
  fun o => if o = oid then some proto else h o

/-- Prototype resolution of Constructor::call: when the receiver is a
Function the call is in construct mode and the new-target function own
prototype is fetched, otherwise the statically registered class
prototype is fetched. -/
def resolveProto (cenv : CtorEnv) (thisVal : JSValue) :
    Except Error Nat :=
  match thisVal with
  | JSValue.function fid => cenv.getProto fid
  | _ => cenv.classProto

/-- Mirrors the generated Constructor::call body: resolve the prototype
from the receiver first; convert the arguments (a Constructor impl never
takes a receiver parameter); call the wrapped function and convert its
result; require the result to be an Object, attaching the resolved
prototype to it before returning it, and fail with an IntoJs error
naming the class otherwise. -/
def constructorCall (s : Shape) (cenv : CtorEnv) (env : CallEnv)
    (f : NativeArgs → Nat) (intoJs : Nat → Except Error JSValue)
    (thisVal : JSValue) (args : List JSValue) (heap : Heap) :
    Except Error (JSValue × Heap) :=
  match resolveProto cenv thisVal with
  | Except.error e => Except.error e
  | Except.ok proto =>
    match (if s.hasThis then Except.map some (env.thisConv thisVal)
           else Except.ok none) with
    | Except.error e => Except.error e
    | Except.ok otv =>
      match pullPositionals env.posConv 0 s.positional args with
      | Except.error e => Except.error e
      | Except.ok (pv, rest) =>
        match (if s.hasVarargs
               then Except.map some (collectResults env.varConv rest)
               else Except.ok none) with
        | Except.error e => Except.error e
        | Except.ok ova =>
          match intoJs (f (NativeArgs.mk none s.hasCtx otv pv ova)) with
          | Except.error e => Except.error e
          | Except.ok res =>
            match res with
            | JSValue.object oid =>
              (match cenv.setProtoErr oid proto with
               | some e => Except.error e
               | none => Except.ok (res, setPrototype heap oid proto))
            | _ => Except.error (Error.intoJs "value" cenv.className none)

/-- Module phase markers BeforeInit and AfterInit. -/
inductive Phase where
  | beforeInit
  | afterInit
deriving DecidableEq, Repr

/-- Module handle carrying its phase marker as a type index, mirroring
the phantom parameter S of Module. -/
structure Module (p : Phase) where
  ptr : Nat
deriving DecidableEq, Repr

/-- Observable events of the module lifecycle, recording which hooks ran
and with which handle. -/
inductive Event where
  | newCModule
  | beforeInitHook (m : Module Phase.beforeInit)
  | afterInitHook (m : Module Phase.afterInit)
deriving DecidableEq, Repr

/-- True when the string contains a NUL character, the failure condition
of CString::new. -/
def hasInteriorNul (s : String) : Bool :=
  s.data.any (fun c => c = Char.ofNat 0)

/-- Model of CString::new, failing on an embedded NUL with the
name-encoding error that the question-mark operator propagates. -/
def cstringNew (s : String) : Except Error String :=
  if hasInteriorNul s then Except.error Error.invalidString
  else Except.ok s

/-- Mirrors Module::<BeforeInit>::new: CString conversion of the name,
then JS_NewCModule (engineAlloc, where none models a null record and an
Allocation error is raised), then the user before-init hook run with the
fresh before-init handle, its error propagated. The returned list is the
emitted event trace. -/
def Module.new (engineAlloc : String → Option Nat)
    (hook : Module Phase.beforeInit → Except Error Unit) (name : String) :
    List Event × Except Error (Module Phase.beforeInit) :=
  match cstringNew name with
  | Except.error e => ([], Except.error e)
  | Except.ok cname =>
    match engineAlloc cname with
    | none => ([Event.newCModule], Except.error Error.allocation)
    | some p =>
      match hook (Module.mk p) with
      | Except.ok _ =>
        ([Event.newCModule, Event.beforeInitHook (Module.mk p)],
         Except.ok (Module.mk p))
      | Except.error e =>
        ([Event.newCModule, Event.beforeInitHook (Module.mk p)],
         Except.error e)

/-- Mirrors the generated instantiation callback init_fn: build an
after-init handle for the raw pointer, run the user after-init hook, and
return status 0 on success and -1 on error, together with the emitted
event trace. -/
def Module.init_fn (hook : Module Phase.afterInit → Except Error Unit)
    (p : Nat) : List Event × Int :=
  match hook (Module.mk p) with
  | Except.ok _ => ([Event.afterInitHook (Module.mk p)], 0)
  | Except.error _ => ([Event.afterInitHook (Module.mk p)], -1)

/-- Bytes of a raw C string before its terminator, as read by
CStr::from_ptr. -/
def cstrBytes (raw : List Nat) : List Nat :=
  raw.takeWhile (fun b => b ≠ 0)

/-- Mirrors Module::init, the extern C module-loading entry point:
decode the raw name (decodeUtf8 models CStr::to_str, returning none on
invalid UTF-8, on which a null pointer is returned), then run
Module::<BeforeInit>::new and return its pointer, with none standing for
the null pointer returned on any failure. -/
def Module.init (decodeUtf8 : List Nat → Option String)
    (engineAlloc : String → Option Nat)
    (hook : Module Phase.beforeInit → Except Error Unit)
    (raw : List Nat) : Option Nat :=
  match decodeUtf8 (cstrBytes raw) with
  | none => none
  | some name =>
    match (Module.new engineAlloc hook name).2 with
    | Except.ok m => some m.ptr
    | Except.error _ => none

/-- Export table of one engine module record: declared names in
declaration order, each with an optional value. -/
abbrev ExportTable : Type := List (String × Option JSValue)

/-- Engine effect of JS_AddModuleExport: append a valueless entry. -/
def addExport (t : ExportTable) (name : String) : ExportTable :=
  t ++ [(name, none)]

/-- Engine effect of JS_SetModuleExport: set the value of the first
entry carrying the name, leaving the table unchanged when absent (the
source discards the engine status). -/
def setExport : ExportTable → String → JSValue → ExportTable
  | [], _, _ => []
  | (n, v) :: rest, name, val =>
    if n = name then (n, some val) :: rest
    else (n, v) :: setExport rest name val

/-- Engine lookup JS_GetModuleExport: value of the first entry carrying
the name, undefined when the entry is absent or not yet set. -/
def getExport (t : ExportTable) (name : String) : JSValue :=
  match t.find? (fun e => e.1 == name) with
  | some (_, some v) => v
  | _ => JSValue.undefined

/-- Mirrors Module::<BeforeInit>::add: CString conversion of the name,
then JS_AddModuleExport, whose status the source discards. -/
def Module.add (_m : Module Phase.beforeInit) (t : ExportTable)
    (name : String) : Except Error ExportTable :=
  match cstringNew name with
  | Except.error e => Except.error e
  | Except.ok cname => Except.ok (addExport t cname)

/-- Mirrors Module::set: CString conversion of the name first, then the
IntoJs conversion of the value, then JS_SetModuleExport, whose status
the source discards. -/
def Module.set (_m : Module Phase.afterInit)
    (intoJs : Nat → Except Error JSValue) (t : ExportTable)
    (name : String) (v : Nat) : Except Error ExportTable :=
  match cstringNew name with
  | Except.error e => Except.error e
  | Except.ok cname =>
    match intoJs v with
    | Except.error e => Except.error e
    | Except.ok jv => Except.ok (setExport t cname jv)

/-- Mirrors Module::get: CString conversion of the name, then
JS_GetModuleExport, then the FromJs conversion of the value. -/
def Module.get (_m : Module Phase.afterInit)
    (fromJs : JSValue → Except Error Nat) (t : ExportTable)
    (name : String) : Except Error Nat :=
  match cstringNew name with
  | Except.error e => Except.error e
  | Except.ok cname => fromJs (getExport t cname)

/-- Common state of ExportNamesIter and ExportEntriesIter: the entry
count fetched once at construction and the current index. -/
structure ExportIter where
  count : Int
  index : Int
deriving DecidableEq, Repr

/-- Mirrors both next implementations: yield none when the index equals
the captured count, leaving the state untouched, else yield the item at
the index and advance the index by one; the item function abstracts the
per-iterator entry read and conversions. -/
def ExportIter.next {α : Type} (item : Int → α) (it : ExportIter) :
    Option α × ExportIter :=
  if it.index = it.count then (none, it)
  else (some (item it.index), ExportIter.mk it.count (it.index + 1))

/-- Mirrors Module::names: count fetched from
JS_GetModuleExportEntriesCount at construction, index zero. -/
def Module.names (_m : Module Phase.afterInit) (entriesCount : Int) :
    ExportIter :=
  ExportIter.mk entriesCount 0

/-- Mirrors Module::entries: same construction as Module::names. -/
def Module.entries (_m : Module Phase.afterInit) (entriesCount : Int) :
    ExportIter :=
  ExportIter.mk entriesCount 0

/-- Item read by ExportNamesIter::next: the entry name at the index with
its FromAtom conversion, both folded into tblName. -/
def namesItem (tblName : Int → Except Error String) :
    Int → Except Error String :=
  tblName

/-- Item read by ExportEntriesIter::next: the entry name and the entry
value at the index, the name conversion applied first and the value
conversion second, exactly as the and_then chain in the source. -/
def entriesItem (tblName : Int → Except Error String)
    (tblVal : Int → JSValue) (fromJs : JSValue → Except Error Nat) :
    Int → Except Error (String × Nat) :=
  fun i =>
    match tblName i with
    | Except.error e => Except.error e
    | Except.ok n =>
      match fromJs (tblVal i) with
      | Except.error e => Except.error e
      | Except.ok v => Except.ok (n, v)

/-- Result yielded by the k-th next call, counting from zero. -/
def ExportIter.nth {α : Type} (item : Int → α) (it : ExportIter) :
    Nat → Option α
  | 0 => (it.next item).1
  | k + 1 => ExportIter.nth item (it.next item).2 k

/-- Iterator state after k next calls. -/
def ExportIter.stateAfter {α : Type} (item : Int → α) (it : ExportIter) :
    Nat → ExportIter
  | 0 => it
  | k + 1 => ExportIter.stateAfter item (it.next item).2 k

/-- Public module operations of module.rs. -/
inductive ModuleOp where
  | add
  | set
  | get
  | names
  | entries
  | name
  | meta
deriving DecidableEq, Repr

/-- Phase index of the impl block each public operation is defined on,
transcribed from module.rs: add sits in the BeforeInit impl, every other
operation in an impl on the AfterInit default. -/
def requiredPhase : ModuleOp → Phase
  | ModuleOp.add => Phase.beforeInit
  | ModuleOp.set => Phase.afterInit
  | ModuleOp.get => Phase.afterInit
  | ModuleOp.names => Phase.afterInit
  | ModuleOp.entries => Phase.afterInit
  | ModuleOp.name => Phase.afterInit
  | ModuleOp.meta => Phase.afterInit

/-- Folding a unit increment over a replicated list adds its length. -/
theorem foldl_replicate_len (a n : Nat) (x : ParamKind) :
    (List.replicate n x).foldl (fun acc _ => acc + 1) a = a + n := by
  induction n generalizing a with
  | zero => simp
  | succ m ih =>
    rw [List.replicate_succ, List.foldl_cons, ih]
    omega

/-- LEN unfolds to the number of plain positional type parameters. -/
theorem Shape.LEN_eq (s : Shape) : s.LEN = s.positional := by
  unfold Shape.LEN
  rw [foldl_replicate_len]
  omega

/-- Counting positional slots in a replicated positional list. -/
theorem countP_replicate_positional (n : Nat) :
    (List.replicate n ParamKind.positional).countP
      (fun p => decide (p = ParamKind.positional)) = n := by
  induction n with
  | zero => rfl
  | succ m ih =>
    rw [List.replicate_succ, List.countP_cons]
    simp [ih]

/-- C1: for every supported callable shape, the constant minimum arity
LEN equals exactly the number of positional parameters in the parameter
slot list, and LEN is unchanged by the presence of a context parameter,
a receiver (including the Method receiver S), or a trailing variadic
capture. -/
theorem c1_len_counts_positionals (s : Shape) :
    s.LEN = s.params.countP (fun p => decide (p = ParamKind.positional))
    ∧ (∀ b1 b2 b3 b4,
        (Shape.mk b1 b2 b3 s.positional b4).LEN = s.LEN) := by
  constructor
  · rcases s with ⟨m, c, t, n, v⟩
    rw [Shape.LEN_eq]
    unfold Shape.params
    cases m <;> cases c <;> cases t <;> cases v <;>
      simp [List.countP_append, List.countP_cons,
        countP_replicate_positional]
  · intro b1 b2 b3 b4
    rw [Shape.LEN_eq, Shape.LEN_eq]

/-- Pulling more positionals than the cursor holds raises the arity
error, provided every available element converts. -/
theorem pullPositionals_too_few (conv : Nat → JSValue → Except Error Nat)
    (args : List JSValue) :
    ∀ n i, args.length < n →
    (∀ j (hj : j < args.length),
      ∃ v, conv (i + j) (args.get ⟨j, hj⟩) = Except.ok v) →
    pullPositionals conv i n args = Except.error not_enough_args := by
  induction args with
  | nil =>
    intro n i hn _
    match n, hn with
    | m + 1, _ => rfl
  | cons a rest ih =>
    intro n i hn hconv
    match n, hn with
    | m + 1, hn =>
      obtain ⟨v, hv⟩ := hconv 0 (by simp)
      simp only [List.get] at hv
      rw [Nat.add_zero] at hv
      have hrest : pullPositionals conv (i + 1) m rest =
          Except.error not_enough_args := by
        apply ih
        · simpa using hn
        · intro j hj
          obtain ⟨w, hw⟩ := hconv (j + 1) (by simpa using hj)
          refine ⟨w, ?_⟩
          have hidx : i + (j + 1) = i + 1 + j := by omega
          rw [hidx] at hw
          simpa [List.get] using hw
      rw [pullPositionals, hv, hrest]

/-- A failing conversion of an available positional surfaces its own
error, provided every earlier positional converts. -/
theorem pullPositionals_conv_error
    (conv : Nat → JSValue → Except Error Nat) (args : List JSValue) :
    ∀ n i j e, j < n → ∀ hj : j < args.length,
    (∀ k (hk : k < j),
      ∃ v, conv (i + k) (args.get ⟨k, lt_trans hk hj⟩) = Except.ok v) →
    conv (i + j) (args.get ⟨j, hj⟩) = Except.error e →
    pullPositionals conv i n args = Except.error e := by
  induction args with
  | nil =>
    intro n i j e _ hj
    exact absurd hj (by simp)
  | cons a rest ih =>
    intro n i j e hjn hj hearlier herr
    match n, hjn with
    | m + 1, hjn =>
      match j, hjn with
      | 0, _ =>
        simp only [List.get] at herr
        rw [Nat.add_zero] at herr
        rw [pullPositionals, herr]
      | k + 1, hjn =>
        obtain ⟨v, hv⟩ := hearlier 0 (by omega)
        simp only [List.get] at hv
        rw [Nat.add_zero] at hv
        have hrest : pullPositionals conv (i + 1) m rest =
            Except.error e := by
          apply ih m (i + 1) k e (by omega) (by simpa using hj)
          · intro l hl
            obtain ⟨w, hw⟩ := hearlier (l + 1) (by omega)
            refine ⟨w, ?_⟩
            have hidx : i + (l + 1) = i + 1 + l := by omega
            rw [hidx] at hw
            simpa [List.get] using hw
          · have hidx : i + (k + 1) = i + 1 + k := by omega
            rw [hidx] at herr
            simpa [List.get] using herr
        rw [pullPositionals, hv, hrest]

/-- C2: for every callable shape, when the cursor holds fewer elements
than the minimum arity and every available element converts, the call
fails with the argument-arity error whose message is exactly the string
"Not enough arguments"; the error comes from the pull of the first
missing positional rather than a precheck, as witnessed by the second
conjunct: a failing conversion of an available positional, with all the
earlier positionals pulled and converted in declared order, surfaces
that conversion error instead. -/
theorem c2_not_enough_arguments (s : Shape) (env : CallEnv)
    (f : NativeArgs → Nat) (intoJs : Nat → Except Error JSValue)
    (thisVal : JSValue) (args : List JSValue) (orv otv : Option Nat)
    (h1 : (if s.isMethod then Except.map some (env.recvConv thisVal)
           else Except.ok none) = Except.ok orv)
    (h2 : (if s.hasThis then Except.map some (env.thisConv thisVal)
           else Except.ok none) = Except.ok otv)
    (hlen : args.length < s.LEN) :
    ((∀ j (hj : j < args.length),
        ∃ v, env.posConv j (args.get ⟨j, hj⟩) = Except.ok v) →
      asFunctionCall s env f intoJs thisVal args =
        Except.error not_enough_args)
    ∧ (∀ j e, ∀ hj : j < args.length,
        (∀ k (hk : k < j),
          ∃ v, env.posConv k (args.get ⟨k, lt_trans hk hj⟩) =
            Except.ok v) →
        env.posConv j (args.get ⟨j, hj⟩) = Except.error e →
        asFunctionCall s env f intoJs thisVal args = Except.error e)
    ∧ not_enough_args.message = some "Not enough arguments" := by
  rw [Shape.LEN_eq] at hlen
  refine ⟨?_, ?_, rfl⟩
  · intro hconv
    have hpull : pullPositionals env.posConv 0 s.positional args =
        Except.error not_enough_args := by
      apply pullPositionals_too_few env.posConv args s.positional 0 hlen
      intro j hj
      simpa using hconv j hj
    rw [asFunctionCall, h1, h2, hpull]
  · intro j e hj hearlier herr
    have hpull : pullPositionals env.posConv 0 s.positional args =
        Except.error e := by
      apply pullPositionals_conv_error env.posConv args s.positional 0 j e
        (by omega) hj
      · intro k hk
        simpa using hearlier k hk
      · simpa using herr
    rw [asFunctionCall, h1, h2, hpull]

/-- Witness for C2 at a plain two-positional closure shape called with a
single argument. -/
theorem c2_witness :
    asFunctionCall (Shape.mk false false false 2 false)
      (CallEnv.mk (fun _ => Except.ok 0) (fun _ => Except.ok 0)
        (fun _ _ => Except.ok 0) (fun _ => Except.ok 0))
      (fun _ => 0) (fun _ => Except.ok JSValue.undefined)
      JSValue.undefined [JSValue.undefined] =
      Except.error not_enough_args :=
  (c2_not_enough_arguments (Shape.mk false false false 2 false)
      (CallEnv.mk (fun _ => Except.ok 0) (fun _ => Except.ok 0)
        (fun _ _ => Except.ok 0) (fun _ => Except.ok 0))
      (fun _ => 0) (fun _ => Except.ok JSValue.undefined)
      JSValue.undefined [JSValue.undefined] none none rfl rfl
      (by decide)).1 (fun j hj => ⟨0, rfl⟩)

/-- Draining a cursor whose elements all convert yields the converted
elements in original order. -/
theorem collectResults_all_ok (conv : JSValue → Except Error Nat)
    (g : JSValue → Nat) :
    ∀ l, (∀ x ∈ l, conv x = Except.ok (g x)) →
    collectResults conv l = Except.ok (l.map g) := by
  intro l
  induction l with
  | nil => intro _; rfl
  | cons a rest ih =>
    intro h
    have ha : conv a = Except.ok (g a) := h a (by simp)
    have hrest : collectResults conv rest = Except.ok (rest.map g) :=
      ih (fun x hx => h x (by simp [hx]))
    rw [collectResults, ha, hrest, List.map_cons]

/-- A single failing element conversion aborts the whole drain with that
error, the earlier elements having converted. -/
theorem collectResults_mid_error (conv : JSValue → Except Error Nat)
    (x : JSValue) (e : Error) :
    ∀ l1 l2, (∀ y ∈ l1, ∃ w, conv y = Except.ok w) →
    conv x = Except.error e →
    collectResults conv (l1 ++ x :: l2) = Except.error e := by
  intro l1
  induction l1 with
  | nil =>
    intro l2 _ herr
    rw [List.nil_append, collectResults, herr]
  | cons a rest ih =>
    intro l2 hok herr
    obtain ⟨w, hw⟩ := hok a (by simp)
    have hrest := ih l2 (fun y hy => hok y (by simp [hy])) herr
    rw [List.cons_append, collectResults, hw, hrest]

/-- C3: for every callable shape with a trailing variadic capture, the
adapter drains every remaining cursor element, converting each to the
capture element type in original cursor order and collecting them into
the capture value handed to the callable; a single failing element
conversion aborts the whole call with that error; and zero remaining
elements yield an empty capture collection, the call proceeding rather
than failing. -/
theorem c3_variadic_capture (s : Shape) (env : CallEnv)
    (f : NativeArgs → Nat) (intoJs : Nat → Except Error JSValue)
    (thisVal : JSValue) (args : List JSValue) (orv otv : Option Nat)
    (pv : List Nat) (rest : List JSValue)
    (hv : s.hasVarargs = true)
    (h1 : (if s.isMethod then Except.map some (env.recvConv thisVal)
           else Except.ok none) = Except.ok orv)
    (h2 : (if s.hasThis then Except.map some (env.thisConv thisVal)
           else Except.ok none) = Except.ok otv)
    (h3 : pullPositionals env.posConv 0 s.positional args =
          Except.ok (pv, rest)) :
    (∀ g : JSValue → Nat,
      (∀ x ∈ rest, env.varConv x = Except.ok (g x)) →
      asFunctionCall s env f intoJs thisVal args =
        intoJs (f (NativeArgs.mk orv s.hasCtx otv pv
          (some (rest.map g)))))
    ∧ (∀ l1 x l2 e, rest = l1 ++ x :: l2 →
        (∀ y ∈ l1, ∃ w, env.varConv y = Except.ok w) →
        env.varConv x = Except.error e →
        asFunctionCall s env f intoJs thisVal args = Except.error e)
    ∧ (rest = [] →
        asFunctionCall s env f intoJs thisVal args =
          intoJs (f (NativeArgs.mk orv s.hasCtx otv pv (some [])))) := by
  refine ⟨?_, ?_, ?_⟩
  · intro g hg
    have hcol : collectResults env.varConv rest =
        Except.ok (rest.map g) := collectResults_all_ok env.varConv g rest hg
    rw [asFunctionCall, h1, h2, h3, hv]
    simp only [if_true, hcol, Except.map]
  · intro l1 x l2 e hrest hok herr
    have hcol : collectResults env.varConv rest = Except.error e := by
      rw [hrest]
      exact collectResults_mid_error env.varConv x e l1 l2 hok herr
    rw [asFunctionCall, h1, h2, h3, hv]
    simp only [if_true, hcol, Except.map]
  · intro hrest
    have hcol : collectResults env.varConv rest = Except.ok [] := by
      rw [hrest]; rfl
    rw [asFunctionCall, h1, h2, h3, hv]
    simp only [if_true, hcol, Except.map]

/-- Witness for C3 at a varargs-only closure shape called with an empty
cursor: the capture is the empty collection and the call succeeds. -/
theorem c3_witness :
    asFunctionCall (Shape.mk false false false 0 true)
      (CallEnv.mk (fun _ => Except.ok 0) (fun _ => Except.ok 0)
        (fun _ _ => Except.ok 0) (fun _ => Except.ok 0))
      (fun _ => 0) (fun _ => Except.ok JSValue.undefined)
      JSValue.undefined [] = Except.ok JSValue.undefined :=
  (c3_variadic_capture (Shape.mk false false false 0 true)
      (CallEnv.mk (fun _ => Except.ok 0) (fun _ => Except.ok 0)
        (fun _ _ => Except.ok 0) (fun _ => Except.ok 0))
      (fun _ => 0) (fun _ => Except.ok JSValue.undefined)
      JSValue.undefined [] none none [] [] rfl rfl rfl rfl).2.2 rfl

/-- C4: for every constructor-adapter invocation, when the receiver is a
Function value the attached prototype is the new-target function own
prototype, otherwise it is the statically registered class prototype;
when the converted return value is not an Object the call fails with the
IntoJs shape-violation error naming the class as conversion target; and
on success the resolved prototype is set on the produced object before
the object is returned. -/
theorem c4_constructor_prototype (s : Shape) (cenv : CtorEnv)
    (env : CallEnv) (f : NativeArgs → Nat)
    (intoJs : Nat → Except Error JSValue) (thisVal : JSValue)
    (args : List JSValue) (heap : Heap) (otv : Option Nat)
    (pv : List Nat) (rest : List JSValue) (ova : Option (List Nat))
    (res : JSValue)
    (h2 : (if s.hasThis then Except.map some (env.thisConv thisVal)
           else Except.ok none) = Except.ok otv)
    (h3 : pullPositionals env.posConv 0 s.positional args =
          Except.ok (pv, rest))
    (h4 : (if s.hasVarargs
           then Except.map some (collectResults env.varConv rest)
           else Except.ok none) = Except.ok ova)
    (hres : intoJs (f (NativeArgs.mk none s.hasCtx otv pv ova)) =
            Except.ok res) :
    (∀ fid p oid, thisVal = JSValue.function fid →
      cenv.getProto fid = Except.ok p →
      res = JSValue.object oid →
      cenv.setProtoErr oid p = none →
      constructorCall s cenv env f intoJs thisVal args heap =
        Except.ok (res, setPrototype heap oid p)
      ∧ setPrototype heap oid p oid = some p)
    ∧ (∀ p oid, (∀ fid, thisVal ≠ JSValue.function fid) →
        cenv.classProto = Except.ok p →
        res = JSValue.object oid →
        cenv.setProtoErr oid p = none →
        constructorCall s cenv env f intoJs thisVal args heap =
          Except.ok (res, setPrototype heap oid p)
        ∧ setPrototype heap oid p oid = some p)
    ∧ (∀ p, resolveProto cenv thisVal = Except.ok p →
        (∀ oid, res ≠ JSValue.object oid) →
        constructorCall s cenv env f intoJs thisVal args heap =
          Except.error (Error.intoJs "value" cenv.className none)) := by
  refine ⟨?_, ?_, ?_⟩
  · intro fid p oid hthis hproto hobj hset
    subst hthis
    subst hobj
    have hrp : resolveProto cenv (JSValue.function fid) =
        Except.ok p := by
      rw [resolveProto, hproto]
    constructor
    · rw [constructorCall, hrp]
      simp only [h2, h3, h4, hres, hset]
    · simp [setPrototype]
  · intro p oid hnotfn hproto hobj hset
    subst hobj
    have hrp : resolveProto cenv thisVal = Except.ok p := by
      cases thisVal with
      | function fid => exact absurd rfl (hnotfn fid)
      | object o =>
        rw [resolveProto, hproto]
        intro fid h
        exact JSValue.noConfusion h
      | int i =>
        rw [resolveProto, hproto]
        intro fid h
        exact JSValue.noConfusion h
      | undefined =>
        rw [resolveProto, hproto]
        intro fid h
        exact JSValue.noConfusion h
    constructor
    · rw [constructorCall, hrp]
      simp only [h2, h3, h4, hres, hset]
    · simp [setPrototype]
  · intro p hproto hnotobj
    cases res with
    | object oid => exact absurd rfl (hnotobj oid)
    | function fid =>
      rw [constructorCall, hproto]
      simp only [h2, h3, h4, hres]
    | int i =>
      rw [constructorCall, hproto]
      simp only [h2, h3, h4, hres]
    | undefined =>
      rw [constructorCall, hproto]
      simp only [h2, h3, h4, hres]

/-- Witness for C4 in construct mode: the new target is a Function whose
own prototype is attached to the produced object. -/
theorem c4_witness :
    constructorCall (Shape.mk false false false 0 false)
      (CtorEnv.mk (fun _ => Except.ok 7) (Except.ok 9) "MyClass"
        (fun _ _ => none))
      (CallEnv.mk (fun _ => Except.ok 0) (fun _ => Except.ok 0)
        (fun _ _ => Except.ok 0) (fun _ => Except.ok 0))
      (fun _ => 0) (fun _ => Except.ok (JSValue.object 3))
      (JSValue.function 5) [] (fun _ => none) =
      Except.ok (JSValue.object 3,
        setPrototype (fun _ => none) 3 7)
    ∧ setPrototype (fun _ => none) 3 7 3 = some 7 :=
  (c4_constructor_prototype (Shape.mk false false false 0 false)
      (CtorEnv.mk (fun _ => Except.ok 7) (Except.ok 9) "MyClass"
        (fun _ _ => none))
      (CallEnv.mk (fun _ => Except.ok 0) (fun _ => Except.ok 0)
        (fun _ _ => Except.ok 0) (fun _ => Except.ok 0))
      (fun _ => 0) (fun _ => Except.ok (JSValue.object 3))
      (JSValue.function 5) [] (fun _ => none) none [] [] none
      (JSValue.object 3) rfl rfl rfl rfl).1 5 7 3 rfl rfl rfl rfl

/-- C5: Module::new rejects a name holding an embedded NUL with the
name-encoding error before touching the engine; when the engine returns
a null record it fails with the allocation error, the before-init hook
not having run; on successful allocation the before-init hook runs
synchronously exactly once, with the before-init-phase handle, before
the handle is returned, the hook error being propagated otherwise; and,
for hooks that do not themselves produce an allocation error, the result
is the allocation error exactly when the engine returned a null
record. -/
theorem c5_module_new (engineAlloc : String → Option Nat)
    (hook : Module Phase.beforeInit → Except Error Unit)
    (name : String) :
    (hasInteriorNul name = true →
      Module.new engineAlloc hook name =
        ([], Except.error Error.invalidString))
    ∧ (hasInteriorNul name = false → engineAlloc name = none →
      Module.new engineAlloc hook name =
        ([Event.newCModule], Except.error Error.allocation))
    ∧ (∀ p, hasInteriorNul name = false → engineAlloc name = some p →
        (Module.new engineAlloc hook name).1 =
          [Event.newCModule, Event.beforeInitHook (Module.mk p)]
        ∧ (hook (Module.mk p) = Except.ok () →
            (Module.new engineAlloc hook name).2 =
              Except.ok (Module.mk p))
        ∧ (∀ e, hook (Module.mk p) = Except.error e →
            (Module.new engineAlloc hook name).2 = Except.error e))
    ∧ ((∀ q, hook q ≠ Except.error Error.allocation) →
        ((Module.new engineAlloc hook name).2 =
            Except.error Error.allocation ↔
          hasInteriorNul name = false ∧ engineAlloc name = none)) := by
  refine ⟨?_, ?_, ?_, ?_⟩
  · intro hnul
    rw [Module.new, cstringNew, hnul]
    rfl
  · intro hnul halloc
    rw [Module.new, cstringNew, hnul]
    simp only [Bool.false_eq_true, if_false, halloc]
  · intro p hnul halloc
    rw [Module.new, cstringNew, hnul]
    simp only [Bool.false_eq_true, if_false, halloc]
    refine ⟨?_, ?_, ?_⟩
    · cases hh : hook (Module.mk p) with
      | ok u => rfl
      | error e => rfl
    · intro hok
      rw [hok]
    · intro e herr
      rw [herr]
  · intro hna
    constructor
    · intro hres
      rw [Module.new] at hres
      cases hnul : hasInteriorNul name with
      | true =>
        rw [cstringNew, hnul] at hres
        simp only [if_true] at hres
        exact absurd hres (by simp)
      | false =>
        refine ⟨rfl, ?_⟩
        rw [cstringNew, hnul] at hres
        simp only [Bool.false_eq_true, if_false] at hres
        cases halloc : engineAlloc name with
        | none => rfl
        | some p =>
          rw [halloc] at hres
          cases hh : hook (Module.mk p) with
          | ok u =>
            simp [hh] at hres
          | error e =>
            simp [hh] at hres
            subst hres
            exact absurd hh (hna (Module.mk p))
    · intro h
      obtain ⟨hnul, halloc⟩ := h
      rw [Module.new, cstringNew, hnul]
      simp only [Bool.false_eq_true, if_false, halloc]

/-- Witness for C5: successful allocation runs the before-init hook
exactly once and returns the handle. -/
theorem c5_witness :
    (Module.new (fun _ => some 4) (fun _ => Except.ok ()) "m").2 =
      Except.ok (Module.mk 4) :=
  ((c5_module_new (fun _ => some 4) (fun _ => Except.ok ())
      "m").2.2.1 4 (by decide) rfl).2.1 rfl

/-- C6: the generated instantiation callback runs the after-init hook
with the after-init-phase handle exactly once per invocation, returning
status 0 to the engine when the hook succeeds and the negative status -1
when the hook fails. -/
theorem c6_init_fn (hook : Module Phase.afterInit → Except Error Unit)
    (p : Nat) :
    (Module.init_fn hook p).1 = [Event.afterInitHook (Module.mk p)]
    ∧ (hook (Module.mk p) = Except.ok () →
        (Module.init_fn hook p).2 = 0)
    ∧ (∀ e, hook (Module.mk p) = Except.error e →
        (Module.init_fn hook p).2 = -1 ∧ (Module.init_fn hook p).2 < 0) := by
  refine ⟨?_, ?_, ?_⟩
  · rw [Module.init_fn]
    cases hh : hook (Module.mk p) with
    | ok u => rfl
    | error e => rfl
  · intro hok
    rw [Module.init_fn, hok]
  · intro e herr
    rw [Module.init_fn, herr]
    refine ⟨rfl, ?_⟩
    show (-1 : Int) < 0
    decide

/-- Witness for C6: a failing after-init hook yields status -1. -/
theorem c6_witness :
    (Module.init_fn (fun _ => Except.error Error.allocation) 0).2 = -1 :=
  ((c6_init_fn (fun _ => Except.error Error.allocation) 0).2.2
      Error.allocation rfl).1

/-- Iteration formula for the shared export-iterator state: starting at
an index at most the captured count, the k-th next call yields the item
at index plus k while below the count and none from the count onward,
and the state after k calls keeps the captured count with the index
clamped at the count. -/
theorem exportIter_nth_formula {α : Type} (item : Int → α) :
    ∀ (k : Nat) (c i : Int), i ≤ c →
    (ExportIter.nth item (ExportIter.mk c i) k =
      (if i + (k : Int) < c then some (item (i + (k : Int))) else none))
    ∧ ExportIter.stateAfter item (ExportIter.mk c i) k =
      ExportIter.mk c (min (i + (k : Int)) c) := by
  intro k
  induction k with
  | zero =>
    intro c i hic
    simp only [Nat.cast_zero, add_zero]
    constructor
    · rw [ExportIter.nth, ExportIter.next]
      by_cases hi : i = c
      · rw [if_pos hi, if_neg (by omega)]
      · rw [if_neg hi, if_pos (by omega)]
    · rw [ExportIter.stateAfter, ExportIter.mk.injEq]
      exact ⟨rfl, by omega⟩
  | succ k ih =>
    intro c i hic
    simp only [Nat.cast_succ]
    by_cases hi : i = c
    · subst hi
      have hnext : ExportIter.next item (ExportIter.mk i i) =
          (none, ExportIter.mk i i) := by
        rw [ExportIter.next, if_pos rfl]
      obtain ⟨h1, h2⟩ := ih i i hic
      constructor
      · rw [ExportIter.nth, hnext]
        rw [h1, if_neg (by omega), if_neg (by omega)]
      · rw [ExportIter.stateAfter, hnext]
        rw [h2, ExportIter.mk.injEq]
        exact ⟨rfl, by omega⟩
    · have hlt : i < c := lt_of_le_of_ne hic hi
      have hnext : ExportIter.next item (ExportIter.mk c i) =
          (some (item i), ExportIter.mk c (i + 1)) := by
        rw [ExportIter.next, if_neg hi]
      obtain ⟨h1, h2⟩ := ih c (i + 1) (by omega)
      constructor
      · rw [ExportIter.nth, hnext]
        rw [h1]
        have he : i + 1 + (k : Int) = i + ((k : Int) + 1) := by ring
        rw [he]
      · rw [ExportIter.stateAfter, hnext]
        rw [h2, ExportIter.mk.injEq]
        exact ⟨rfl, by omega⟩

/-- C7: for the export-name and export-entry iterators, the entry count
is captured at construction and fully determines iteration: the k-th
next call yields the item at index k, in declaration order, while k is
below the captured count, and yields none on that and every later call
once k reaches the count; the captured count field itself never changes
across next calls. -/
theorem c7_export_iterators (m : Module Phase.afterInit)
    (tblName : Int → Except Error String) (tblVal : Int → JSValue)
    (fromJs : JSValue → Except Error Nat) (c : Int) (hc : 0 ≤ c) :
    (∀ k : Nat,
      ExportIter.nth (namesItem tblName) (Module.names m c) k =
        if (k : Int) < c then some (namesItem tblName k) else none)
    ∧ (∀ k : Nat,
        (ExportIter.stateAfter (namesItem tblName)
          (Module.names m c) k).count = c)
    ∧ (∀ k : Nat,
        ExportIter.nth (entriesItem tblName tblVal fromJs)
          (Module.entries m c) k =
          if (k : Int) < c
          then some (entriesItem tblName tblVal fromJs k) else none)
    ∧ (∀ k : Nat,
        (ExportIter.stateAfter (entriesItem tblName tblVal fromJs)
          (Module.entries m c) k).count = c) := by
  refine ⟨?_, ?_, ?_, ?_⟩
  · intro k
    have h := (exportIter_nth_formula (namesItem tblName) k c 0 hc).1
    rw [Module.names, h]
    simp
  · intro k
    have h := (exportIter_nth_formula (namesItem tblName) k c 0 hc).2
    rw [Module.names, h]
  · intro k
    have h := (exportIter_nth_formula
      (entriesItem tblName tblVal fromJs) k c 0 hc).1
    rw [Module.entries, h]
    simp
  · intro k
    have h := (exportIter_nth_formula
      (entriesItem tblName tblVal fromJs) k c 0 hc).2
    rw [Module.entries, h]

/-- Witness for C7: with a captured count of two, the first next call on
a fresh names iterator yields the entry at index zero. -/
theorem c7_witness :
    ExportIter.nth (namesItem (fun _ => Except.ok "a"))
      (Module.names (Module.mk 0) 2) 0 = some (Except.ok "a") := by
  have h := (c7_export_iterators (Module.mk 0) (fun _ => Except.ok "a")
      (fun _ => JSValue.undefined) (fun _ => Except.ok 0) 2
      (by decide)).1 0
  simpa using h

/-- Setting the value of a name just declared at the end of the table
makes it the value the first matching entry carries. -/
theorem getExport_setExport_addExport (name : String) (jv : JSValue) :
    ∀ t : ExportTable,
    getExport (setExport (addExport t name) name jv) name = jv := by
  intro t
  induction t with
  | nil =>
    rw [addExport, List.nil_append, setExport, if_pos rfl, getExport]
    simp
  | cons e rest ih =>
    obtain ⟨n, w⟩ := e
    rw [addExport, List.cons_append]
    by_cases hn : n = name
    · subst hn
      rw [setExport, if_pos rfl, getExport]
      simp
    · rw [setExport, if_neg hn, getExport]
      rw [List.find?]
      have hbeq : (n == name) = false := by
        simp [hn]
      simp only [hbeq]
      rw [addExport] at ih
      rw [getExport] at ih
      exact ih

/-- C8: declaring an export name on a before-init handle, assigning a
value to that name on an after-init handle, and then reading the name
returns exactly the assigned value, after it has crossed the conversion
capability out and back in. -/
theorem c8_export_roundtrip (mb : Module Phase.beforeInit)
    (ma : Module Phase.afterInit) (intoJs : Nat → Except Error JSValue)
    (fromJs : JSValue → Except Error Nat) (t0 t1 t2 : ExportTable)
    (name : String) (v : Nat) (jv : JSValue)
    (hn : hasInteriorNul name = false)
    (hio : intoJs v = Except.ok jv)
    (hfo : fromJs jv = Except.ok v)
    (h1 : Module.add mb t0 name = Except.ok t1)
    (h2 : Module.set ma intoJs t1 name v = Except.ok t2) :
    Module.get ma fromJs t2 name = Except.ok v := by
  have hcs : cstringNew name = Except.ok name := by
    rw [cstringNew, hn]
    simp
  rw [Module.add, hcs] at h1
  simp only [Except.ok.injEq] at h1
  rw [Module.set, hcs, hio] at h2
  simp only [Except.ok.injEq] at h2
  rw [Module.get, hcs]
  subst h1
  subst h2
  show fromJs (getExport (setExport (addExport t0 name) name jv) name) =
    Except.ok v
  rw [getExport_setExport_addExport name jv t0]
  exact hfo

/-- Witness for C8 at a singleton scenario: declare a, set a to the
engine value 2, read a back. -/
theorem c8_witness :
    Module.get (Module.mk 0)
      (fun jv => match jv with
        | JSValue.int i => Except.ok i.toNat
        | _ => Except.error Error.invalidString)
      (setExport (addExport [] "a") "a" (JSValue.int 2)) "a" =
      Except.ok 2 :=
  c8_export_roundtrip (Module.mk 0) (Module.mk 0)
    (fun n => Except.ok (JSValue.int n))
    (fun jv => match jv with
      | JSValue.int i => Except.ok i.toNat
      | _ => Except.error Error.invalidString)
    [] (addExport [] "a") (setExport (addExport [] "a") "a" (JSValue.int 2))
    "a" 2 (JSValue.int 2) (by decide) rfl rfl
    (by rw [Module.add]; rfl) (by rw [Module.set]; rfl)

/-- C9: the phase separation of the public module interface, transcribed
from the impl blocks: export declaration is defined on the before-init
phase only, while export assignment, export reading and the name and
metadata queries are defined on the after-init phase only, the two
phases being distinct. -/
theorem c9_phase_separation :
    requiredPhase ModuleOp.add = Phase.beforeInit
    ∧ (∀ op : ModuleOp, op ≠ ModuleOp.add →
        requiredPhase op = Phase.afterInit)
    ∧ Phase.beforeInit ≠ Phase.afterInit := by
  refine ⟨rfl, ?_, by decide⟩
  intro op h
  cases op with
  | add => exact absurd rfl h
  | set => rfl
  | get => rfl
  | names => rfl
  | entries => rfl
  | name => rfl
  | meta => rfl

/-- Witness for C9: export assignment is an after-init operation. -/
theorem c9_witness : requiredPhase ModuleOp.set = Phase.afterInit :=
  c9_phase_separation.2.1 ModuleOp.set (by decide)

/-- C10: the engine-facing initialization entry point returns the null
pointer, never an error value, in every failure case: invalid UTF-8 in
the raw name, an embedded NUL in the decoded name, a null module record
from the engine, and a failing before-init hook; and it returns a
non-null pointer exactly when creation and the before-init hook both
succeed. -/
theorem c10_init_null (decodeUtf8 : List Nat → Option String)
    (engineAlloc : String → Option Nat)
    (hook : Module Phase.beforeInit → Except Error Unit)
    (raw : List Nat) :
    (decodeUtf8 (cstrBytes raw) = none →
      Module.init decodeUtf8 engineAlloc hook raw = none)
    ∧ (∀ name, decodeUtf8 (cstrBytes raw) = some name →
        hasInteriorNul name = true →
        Module.init decodeUtf8 engineAlloc hook raw = none)
    ∧ (∀ name, decodeUtf8 (cstrBytes raw) = some name →
        hasInteriorNul name = false → engineAlloc name = none →
        Module.init decodeUtf8 engineAlloc hook raw = none)
    ∧ (∀ name p e, decodeUtf8 (cstrBytes raw) = some name →
        hasInteriorNul name = false → engineAlloc name = some p →
        hook (Module.mk p) = Except.error e →
        Module.init decodeUtf8 engineAlloc hook raw = none)
    ∧ (∀ p, Module.init decodeUtf8 engineAlloc hook raw = some p ↔
        ∃ name, decodeUtf8 (cstrBytes raw) = some name
          ∧ hasInteriorNul name = false
          ∧ engineAlloc name = some p
          ∧ hook (Module.mk p) = Except.ok ()) := by
  refine ⟨?_, ?_, ?_, ?_, ?_⟩
  · intro hdec
    rw [Module.init, hdec]
  · intro name hdec hnul
    rw [Module.init, hdec]
    have h := (c5_module_new engineAlloc hook name).1 hnul
    rw [Prod.ext_iff] at h
    simp only [h.2]
  · intro name hdec hnul halloc
    rw [Module.init, hdec]
    have h := (c5_module_new engineAlloc hook name).2.1 hnul halloc
    rw [Prod.ext_iff] at h
    simp only [h.2]
  · intro name p e hdec hnul halloc hhook
    rw [Module.init, hdec]
    have h := ((c5_module_new engineAlloc hook name).2.2.1 p hnul
      halloc).2.2 e hhook
    simp only [h]
  · intro p
    constructor
    · intro hinit
      rw [Module.init] at hinit
      cases hdec : decodeUtf8 (cstrBytes raw) with
      | none =>
        rw [hdec] at hinit
        exact absurd hinit (by simp)
      | some name =>
        rw [hdec] at hinit
        refine ⟨name, rfl, ?_⟩
        cases hnul : hasInteriorNul name with
        | true =>
          have h := (c5_module_new engineAlloc hook name).1 hnul
          rw [Prod.ext_iff] at h
          simp only [h.2] at hinit
          exact absurd hinit (by simp)
        | false =>
          refine ⟨rfl, ?_⟩
          cases halloc : engineAlloc name with
          | none =>
            have h := (c5_module_new engineAlloc hook name).2.1 hnul halloc
            rw [Prod.ext_iff] at h
            simp only [h.2] at hinit
            exact absurd hinit (by simp)
          | some q =>
            cases hh : hook (Module.mk q) with
            | ok u =>
              have h := ((c5_module_new engineAlloc hook name).2.2.1 q
                hnul halloc).2.1 hh
              simp only [h, Option.some.injEq] at hinit
              subst hinit
              exact ⟨rfl, hh⟩
            | error e =>
              have h := ((c5_module_new engineAlloc hook name).2.2.1 q
                hnul halloc).2.2 e hh
              simp only [h] at hinit
              exact absurd hinit (by simp)
    · intro hex
      obtain ⟨name, hdec, hnul, halloc, hhook⟩ := hex
      rw [Module.init, hdec]
      have h := ((c5_module_new engineAlloc hook name).2.2.1 p hnul
        halloc).2.1 hhook
      simp only [h]

/-- Witness for C10: an undecodable raw name yields the null pointer. -/
theorem c10_witness :
    Module.init (fun _ => none) (fun _ => some 1)
      (fun _ => Except.ok ()) [0] = none :=
  (c10_init_null (fun _ => none) (fun _ => some 1)
    (fun _ => Except.ok ()) [0]).1 rfl

end Rq
